import Mathlib

/-!
Verification of the rustfest-2018-workshop chat nodes (chapter-2 and
chapter-3). The definitions below are shallow embeddings of
`chapter-2/src/main.rs` and `chapter-3/src/main.rs`. Parts of the design
that the reference code delegates to the networking library (the
connection manager / "swarm" and the floodsub engine) or to the crate's
`platform.rs` are modelled from the specification; their doc comments say
so explicitly. Byte values are `Nat` below 256, strings of the host
program are Lean `String`s, and panics of the original program are
modelled as error results carrying the panic diagnostic.
-/

namespace Workshop

/-! ## Chapter-2 stdin bridge (`chapter-2/src/main.rs` lines 149-159) -/

/-- The chapter-2 stdin handler: every byte coming from stdin is pushed
onto `buf`; when the byte is a newline (10) the whole buffer — newline
included — is published on `topic` and the buffer is cleared. The result
is the final buffer contents and the list of publish calls
(topic, payload) in order. -/
def stdinRun (topic : String) : List Nat → List Nat → List Nat × List (String × List Nat)
  | buf, [] => (buf, [])
  | buf, b :: rest =>
    let buf' := buf ++ [b]
    if b = 10 then
      let r := stdinRun topic [] rest
      (r.1, (topic, buf') :: r.2)
    else
      stdinRun topic buf' rest

/-- Modelled from the spec: chapter-3's `platform.stdin()` lives in
`platform.rs`, which is not among the sources; per the spec it produces
"each newline-terminated line of input read from stdin" as one message.
The chapter-3 `stdin_future` (`chapter-3/src/main.rs` lines 173-176) then
publishes each such message once on `topic`. -/
def ch3StdinRun (topic : String) : List String → List (String × String)
  | [] => []
  | m :: rest => (topic, m) :: ch3StdinRun topic rest

theorem stdinRun_length (t : String) :
    ∀ (input buf : List Nat), ((stdinRun t buf input).2).length = input.count 10 := by
  intro input
  induction input with
  | nil => intro buf; simp [stdinRun]
  | cons b rest ih =>
    intro buf
    by_cases hb : b = 10
    · subst hb
      simp [stdinRun, ih, List.count_cons]
    · simp [stdinRun, hb, ih, List.count_cons, Ne.symm hb]

theorem stdinRun_topics (t : String) :
    ∀ (input buf : List Nat),
      ((stdinRun t buf input).2).map Prod.fst = List.replicate (input.count 10) t := by
  intro input
  induction input with
  | nil => intro buf; simp [stdinRun]
  | cons b rest ih =>
    intro buf
    by_cases hb : b = 10
    · subst hb
      simp [stdinRun, ih, List.count_cons, List.replicate_succ]
    · simp [stdinRun, hb, ih, List.count_cons, Ne.symm hb]

theorem ch3StdinRun_length (t : String) :
    ∀ msgs : List String, (ch3StdinRun t msgs).length = msgs.length := by
  intro msgs
  induction msgs with
  | nil => simp [ch3StdinRun]
  | cons m rest ih => simp [ch3StdinRun, ih]

theorem ch3StdinRun_topics (t : String) :
    ∀ msgs : List String,
      (ch3StdinRun t msgs).map Prod.fst = List.replicate msgs.length t := by
  intro msgs
  induction msgs with
  | nil => simp [ch3StdinRun]
  | cons m rest ih => simp [ch3StdinRun, ih, List.replicate_succ]

/-- Claim C1: every newline-terminated line read from stdin results in
exactly one publish call on the single (default) topic: in chapter 2 the
number of publishes equals the number of newline bytes of the input and
every publish targets `t`; in chapter 3 each stdin message yields exactly
one publish, again always on `t`. -/
theorem stdin_lines_published_once (t : String) (input : List Nat) (msgs : List String) :
    ((stdinRun t [] input).2).length = input.count 10
      ∧ ((stdinRun t [] input).2).map Prod.fst = List.replicate (input.count 10) t
      ∧ (ch3StdinRun t msgs).length = msgs.length
      ∧ (ch3StdinRun t msgs).map Prod.fst = List.replicate msgs.length t :=
  ⟨stdinRun_length t input [], stdinRun_topics t input [],
    ch3StdinRun_length t msgs, ch3StdinRun_topics t msgs⟩

theorem stdinRun_join (t : String) :
    ∀ (input buf : List Nat),
      (((stdinRun t buf input).2).map Prod.snd).flatten ++ (stdinRun t buf input).1
        = buf ++ input := by
  intro input
  induction input with
  | nil => intro buf; simp [stdinRun]
  | cons b rest ih =>
    intro buf
    by_cases hb : b = 10
    · subst hb
      have h1 : stdinRun t buf (10 :: rest)
          = ((stdinRun t [] rest).1, (t, buf ++ [10]) :: (stdinRun t [] rest).2) := by
        simp [stdinRun]
      rw [h1]
      simp only [List.map_cons, List.flatten_cons, List.append_assoc]
      rw [ih []]
      simp
    · have h1 : stdinRun t buf (b :: rest) = stdinRun t (buf ++ [b]) rest := by
        simp [stdinRun, hb]
      rw [h1, ih (buf ++ [b])]
      simp

theorem stdinRun_payload_shape (t : String) :
    ∀ (input buf : List Nat), buf.count 10 = 0 →
      (∀ p ∈ (stdinRun t buf input).2, (p.2).getLast? = some 10 ∧ (p.2).count 10 = 1)
        ∧ ((stdinRun t buf input).1).count 10 = 0 := by
  intro input
  induction input with
  | nil => intro buf hbuf; exact ⟨by simp [stdinRun], by simpa [stdinRun] using hbuf⟩
  | cons b rest ih =>
    intro buf hbuf
    by_cases hb : b = 10
    · subst hb
      have ihr := ih [] (by simp)
      have h1 : stdinRun t buf (10 :: rest)
          = ((stdinRun t [] rest).1, (t, buf ++ [10]) :: (stdinRun t [] rest).2) := by
        simp [stdinRun]
      rw [h1]
      constructor
      · intro p hp
        rcases List.mem_cons.mp hp with hp2 | hp2
        · subst hp2
          refine ⟨by simp [List.getLast?_concat], ?_⟩
          simp [List.count_append, hbuf]
        · exact ihr.1 p hp2
      · exact ihr.2
    · have hcount : (buf ++ [b]).count 10 = 0 := by
        simp [List.count_append, hbuf, List.count_cons, hb, Ne.symm hb]
      have h1 : stdinRun t buf (b :: rest) = stdinRun t (buf ++ [b]) rest := by
        simp [stdinRun, hb]
      rw [h1]
      exact ih (buf ++ [b]) hcount

/-- The single topic of chapter 2, built once at startup
(`chapter-2/src/main.rs` line 106). -/
def ch2TopicName : String := "workshop-chapter2-topic"

/-- The single topic of chapter 3, built once at startup
(`chapter-3/src/main.rs` line 140). -/
def ch3TopicName : String := "workshop-chapter3-topic"

/-- Claim C9: in chapter 2's stdin bridge every published payload is
exactly the bytes accumulated since the previous publish, terminating
newline included: the published payloads concatenated, followed by the
remaining buffer, reproduce the whole input; every payload contains
exactly one newline byte and it is the payload's last byte; and the
trailing buffer — a partial line never terminated by a newline — contains
no newline and is never published. -/
theorem publish_payload_exact_lines (input : List Nat) :
    (((stdinRun ch2TopicName [] input).2).map Prod.snd).flatten
        ++ (stdinRun ch2TopicName [] input).1 = input
      ∧ (∀ p ∈ (stdinRun ch2TopicName [] input).2,
          (p.2).getLast? = some 10 ∧ (p.2).count 10 = 1)
      ∧ ((stdinRun ch2TopicName [] input).1).count 10 = 0 := by
  refine ⟨by simpa using stdinRun_join ch2TopicName input [], ?_, ?_⟩
  · exact (stdinRun_payload_shape ch2TopicName input [] (by simp)).1
  · exact (stdinRun_payload_shape ch2TopicName input [] (by simp)).2

/-- Concrete run of the chapter-2 stdin bridge on the bytes of "hi\nx":
one payload, `"hi\n"`, is published and the unterminated `"x"` stays in
the buffer. -/
theorem publish_payload_exact_lines_witness :
    (((stdinRun ch2TopicName [] [104, 105, 10, 120]).2).map Prod.snd).flatten
        ++ (stdinRun ch2TopicName [] [104, 105, 10, 120]).1 = [104, 105, 10, 120]
      ∧ ((stdinRun ch2TopicName [] [104, 105, 10, 120]).1).count 10 = 0 :=
  ⟨(publish_payload_exact_lines [104, 105, 10, 120]).1,
    (publish_payload_exact_lines [104, 105, 10, 120]).2.2⟩

/-! ## Receive handler (`for_each` closure, chapter-2 lines 114-122 and
chapter-3 lines 148-156) -/

/-- A UTF-8 continuation byte: `0x80 ≤ b ≤ 0xBF`. -/
def isCont (b : Nat) : Bool := 0x80 ≤ b && b ≤ 0xBF

/-- Admissible second byte of a three-byte UTF-8 sequence led by `b`
(rules out overlong encodings and surrogates, as Rust's
`String::from_utf8` does). -/
def cont3Ok (b c : Nat) : Bool :=
  if b = 0xE0 then 0xA0 ≤ c && c ≤ 0xBF
  else if b = 0xED then 0x80 ≤ c && c ≤ 0x9F
  else isCont c

/-- Admissible second byte of a four-byte UTF-8 sequence led by `b`
(rules out overlong encodings and code points above U+10FFFF). -/
def cont4Ok (b c : Nat) : Bool :=
  if b = 0xF0 then 0x90 ≤ c && c ≤ 0xBF
  else if b = 0xF4 then 0x80 ≤ c && c ≤ 0x8F
  else isCont c

/-- UTF-8 decoding as performed by Rust's `String::from_utf8`: `some`
with the decoded code points when the bytes are valid UTF-8, `none`
otherwise. -/
def utf8Decode : List Nat → Option (List Nat)
  | [] => some []
  | b :: rest =>
    if b ≤ 0x7F then (utf8Decode rest).map (fun cps => b :: cps)
    else if 0xC2 ≤ b && b ≤ 0xDF then
      match rest with
      | c1 :: rest2 =>
        if isCont c1 then
          (utf8Decode rest2).map (fun cps => ((b - 0xC0) * 0x40 + (c1 - 0x80)) :: cps)
        else none
      | [] => none
    else if 0xE0 ≤ b && b ≤ 0xEF then
      match rest with
      | c1 :: c2 :: rest3 =>
        if cont3Ok b c1 && isCont c2 then
          (utf8Decode rest3).map
            (fun cps => ((b - 0xE0) * 0x1000 + (c1 - 0x80) * 0x40 + (c2 - 0x80)) :: cps)
        else none
      | _ => none
    else if 0xF0 ≤ b && b ≤ 0xF4 then
      match rest with
      | c1 :: c2 :: c3 :: rest4 =>
        if cont4Ok b c1 && isCont c2 && isCont c3 then
          (utf8Decode rest4).map
            (fun cps => ((b - 0xF0) * 0x40000 + (c1 - 0x80) * 0x1000
              + (c2 - 0x80) * 0x40 + (c3 - 0x80)) :: cps)
        else none
      | _ => none
    else none

/-- One line printed on stdout by the receive handler: either a chat line
(the code points printed after the `"> "` prefix, prefix included below as
code points 62 and 32) or the fixed `"Received non-utf8 message"`
placeholder. -/
inductive OutLine
  | chat (codepoints : List Nat)
  | nonUtf8Notice
deriving DecidableEq

/-- The `for_each` closure both chapters install on `floodsub_rx`: decode
the message's payload as UTF-8; on success print it prefixed with `"> "`
(code points 62, 32), otherwise print the placeholder line. -/
def handleMsg (data : List Nat) : OutLine :=
  match utf8Decode data with
  | some cps => OutLine.chat (62 :: 32 :: cps)
  | none => OutLine.nonUtf8Notice

/-- All lines printed for a list of locally delivered messages, in
order. -/
def printedLines (msgs : List (List Nat)) : List OutLine :=
  msgs.map handleMsg

/-- Claim C2: for every locally-delivered floodsub message exactly one
line is printed; when the payload decodes as UTF-8 it is the decoded
text prefixed with `"> "`, and when it does not decode the line is the
fixed placeholder — no other outcome exists. -/
theorem received_message_printed (data : List Nat) (msgs : List (List Nat)) :
    ((∃ cps, utf8Decode data = some cps ∧ handleMsg data = OutLine.chat (62 :: 32 :: cps))
        ∨ (utf8Decode data = none ∧ handleMsg data = OutLine.nonUtf8Notice))
      ∧ (printedLines msgs).length = msgs.length := by
  constructor
  · match h : utf8Decode data with
    | some cps => exact Or.inl ⟨cps, rfl, by simp [handleMsg, h]⟩
    | none => exact Or.inr ⟨rfl, by simp [handleMsg, h]⟩
  · simp [printedLines]

/-! ## Startup: argument handling, dial loop, `expect` chain
(chapter-2 lines 46-145, chapter-3 lines 121-171) -/

/-- Panic diagnostic of `peer.parse().expect(...)` in the dial loops. -/
def peerParseDiag : String := "Argument is not a valid multiaddress"

/-- Panic diagnostic of `swarm_controller.dial(...).expect(...)`. -/
def dialFailDiag : String := "Failed to connect to Peer"

/-- Panic diagnostic of the listen-address `parse().expect(...)`. -/
def listenParseDiag : String := "failed to parse multiaddress"

/-- Panic diagnostic of `swarm_controller.listen_on(...).expect(...)`. -/
def listenFailDiag : String := "failed to listen"

/-- The dial loop both chapters run over the peer-address list: each
argument is parsed as a multiaddress (`parse`, an external collaborator;
`none` is a parse error) and dialed (`dial`; `none` is a dial error);
either failure panics with the corresponding `expect` diagnostic.
Returns the connections registered with the swarm, in order, paired with
`some diagnostic` when the loop panicked. -/
def dialLoop {A C : Type} (parse : String → Option A) (dial : A → Option C) :
    List String → List C × Option String
  | [] => ([], none)
  | arg :: rest =>
    match parse arg with
    | none => ([], some peerParseDiag)
    | some addr =>
      match dial addr with
      | none => ([], some dialFailDiag)
      | some c =>
        let r := dialLoop parse dial rest
        (c :: r.1, r.2)

theorem dialLoop_ok {A C : Type} (parse : String → Option A) (dial : A → Option C) :
    ∀ args : List String,
      (∀ a ∈ args, ∃ m c, parse a = some m ∧ dial m = some c) →
      (dialLoop parse dial args).2 = none
        ∧ (dialLoop parse dial args).1.length = args.length := by
  intro args
  induction args with
  | nil => intro _; simp [dialLoop]
  | cons a rest ih =>
    intro h
    obtain ⟨m, c, hm, hc⟩ := h a (List.mem_cons_self a rest)
    have ihr := ih (fun x hx => h x (List.mem_cons_of_mem a hx))
    simp [dialLoop, hm, hc, ihr.1, ihr.2]

/-- Claim C3: a syntactically invalid peer-address argument makes the
dial loop fail at once with the address-parse diagnostic, and no
connection is registered for it: only the arguments before it — all of
which parse and dial successfully — have registered connections. -/
theorem dial_invalid_address_no_connection {A C : Type}
    (parse : String → Option A) (dial : A → Option C)
    (pre post : List String) (a : String)
    (hbad : parse a = none)
    (hpre : ∀ x ∈ pre, ∃ m c, parse x = some m ∧ dial m = some c) :
    (dialLoop parse dial (pre ++ a :: post)).2 = some peerParseDiag
      ∧ (dialLoop parse dial (pre ++ a :: post)).1.length = pre.length := by
  induction pre with
  | nil => simp [dialLoop, hbad]
  | cons x rest ih =>
    obtain ⟨m, c, hm, hc⟩ := hpre x (List.mem_cons_self x rest)
    have ihr := ih (fun y hy => hpre y (List.mem_cons_of_mem x hy))
    simp [dialLoop, hm, hc, ihr.1, ihr.2]

/-- Concrete instance of `dial_invalid_address_no_connection`: with a
parser accepting only `"ok"`, the argument list `["ok", "bad", "ok"]`
panics on `"bad"` with the parse diagnostic, after registering exactly
the one connection for the leading `"ok"`. -/
theorem dial_invalid_address_no_connection_witness :
    (dialLoop (fun s => if s = "ok" then some 0 else none) (fun n : Nat => some n)
        (["ok"] ++ "bad" :: ["ok"])).2 = some peerParseDiag
      ∧ (dialLoop (fun s => if s = "ok" then some 0 else none) (fun n : Nat => some n)
        (["ok"] ++ "bad" :: ["ok"])).1.length = (["ok"] : List String).length :=
  dial_invalid_address_no_connection
    (fun s => if s = "ok" then some 0 else none) (fun n : Nat => some n)
    ["ok"] ["ok"] "bad" (by simp)
    (by intro x hx; simp only [List.mem_singleton] at hx; subst hx; exact ⟨0, 0, by simp, rfl⟩)

/-- Outcomes of the external collaborators chapter-2's `main` consults
during startup: the result of parsing the literal listen address, the
result of `listen_on`, and the peer-address parser and dialer used by the
dial loop. `none` is the respective failure. -/
structure Ch2Env (A C : Type) where
  parseListen : Option A
  listenOn : A → Option A
  parsePeer : String → Option A
  dial : A → Option C

/-- A chapter-2 node that survived startup: the concrete bound listen
address and the connections registered by the dial loop. -/
structure Ch2Node (A C : Type) where
  boundAddr : A
  conns : List C

/-- The chapter-2 startup sequence (`main`, lines 46-145): parse the
listen address (`expect`), listen on it (`expect`), subscribe to the
topic, then dial every argument (`expect` on parse and on dial). A panic
is modelled as `Except.error` carrying the panic diagnostic; control
never continues past it. -/
def ch2Startup {A C : Type} (env : Ch2Env A C) (args : List String) :
    Except String (Ch2Node A C) :=
  match env.parseListen with
  | none => Except.error listenParseDiag
  | some la =>
    match env.listenOn la with
    | none => Except.error listenFailDiag
    | some actual =>
      let r := dialLoop env.parsePeer env.dial args
      match r.2 with
      | some d => Except.error d
      | none => Except.ok ⟨actual, r.1⟩

theorem dialLoop_diag {A C : Type} (parse : String → Option A) (dial : A → Option C) :
    ∀ (args : List String) (d : String),
      (dialLoop parse dial args).2 = some d → d = peerParseDiag ∨ d = dialFailDiag := by
  intro args
  induction args with
  | nil => intro d hd; simp [dialLoop] at hd
  | cons a rest ih =>
    intro d hd
    match hm : parse a with
    | none => simp [dialLoop, hm] at hd; exact Or.inl hd.symm
    | some m =>
      match hc : dial m with
      | none => simp [dialLoop, hm, hc] at hd; exact Or.inr hd.symm
      | some c =>
        simp only [dialLoop, hm, hc] at hd
        exact ih d hd

theorem dialLoop_none_of_ok {A C : Type} (parse : String → Option A) (dial : A → Option C) :
    ∀ args : List String,
      (dialLoop parse dial args).2 = none →
      ∀ a ∈ args, ∃ m c, parse a = some m ∧ dial m = some c := by
  intro args
  induction args with
  | nil => intro _ a ha; simp at ha
  | cons x rest ih =>
    intro h a ha
    match hm : parse x with
    | none => simp [dialLoop, hm] at h
    | some m =>
      match hc : dial m with
      | none => simp [dialLoop, hm, hc] at h
      | some c =>
        simp only [dialLoop, hm, hc] at h
        rcases List.mem_cons.mp ha with ha | ha
        · subst ha; exact ⟨m, c, hm, hc⟩
        · exact ih h a ha

/-- Claim C5: chapter-2 startup survives exactly when none of the four
unrecoverable startup errors occurs — the listen address parses, the bind
succeeds, and every peer argument parses and dials; conversely, whenever
startup terminates, it is with one of the four `expect` panic
diagnostics. -/
theorem startup_error_terminates {A C : Type} (env : Ch2Env A C) (args : List String) :
    ((∃ n, ch2Startup env args = Except.ok n)
        ↔ (∃ la, env.parseListen = some la ∧ (∃ b, env.listenOn la = some b))
            ∧ ∀ a ∈ args, ∃ m c, env.parsePeer a = some m ∧ env.dial m = some c)
      ∧ ∀ d, ch2Startup env args = Except.error d →
          d = listenParseDiag ∨ d = listenFailDiag ∨ d = peerParseDiag ∨ d = dialFailDiag := by
  refine ⟨⟨?_, ?_⟩, ?_⟩
  · rintro ⟨n, hn⟩
    match hpl : env.parseListen with
    | none => simp [ch2Startup, hpl] at hn
    | some la =>
      match hlo : env.listenOn la with
      | none => simp [ch2Startup, hlo, hpl] at hn
      | some b =>
        refine ⟨⟨la, rfl, b, hlo⟩, ?_⟩
        simp only [ch2Startup, hpl, hlo] at hn
        match hdl : (dialLoop env.parsePeer env.dial args).2 with
        | some d => rw [hdl] at hn; exact absurd hn (by simp)
        | none => exact dialLoop_none_of_ok env.parsePeer env.dial args hdl
  · rintro ⟨⟨la, hpl, b, hlo⟩, hargs⟩
    have hdl := dialLoop_ok env.parsePeer env.dial args hargs
    refine ⟨⟨b, (dialLoop env.parsePeer env.dial args).1⟩, ?_⟩
    simp [ch2Startup, hpl, hlo, hdl.1]
  · intro d hd
    match hpl : env.parseListen with
    | none =>
      simp [ch2Startup, hpl] at hd
      exact Or.inl hd.symm
    | some la =>
      match hlo : env.listenOn la with
      | none =>
        simp [ch2Startup, hpl, hlo] at hd
        exact Or.inr (Or.inl hd.symm)
      | some b =>
        simp only [ch2Startup, hpl, hlo] at hd
        match hdl : (dialLoop env.parsePeer env.dial args).2 with
        | none => rw [hdl] at hd; exact absurd hd (by simp)
        | some d2 =>
          rw [hdl] at hd
          have hdd : d2 = d := by simpa using hd
          subst hdd
          rcases dialLoop_diag env.parsePeer env.dial args d2 hdl with h | h
          · exact Or.inr (Or.inr (Or.inl h))
          · exact Or.inr (Or.inr (Or.inr h))

/-- Concrete instance of `startup_error_terminates`: an environment whose
`listen_on` fails produces no node, i.e. the process dies during
startup. -/
theorem startup_error_terminates_witness :
    ¬ ∃ n, ch2Startup
        (⟨some 0, fun _ => none, fun _ => some 0, fun _ => some 0⟩ : Ch2Env Nat Nat)
        [] = Except.ok n := by
  intro hok
  have h := (startup_error_terminates
    (⟨some 0, fun _ => none, fun _ => some 0, fun _ => some 0⟩ : Ch2Env Nat Nat) []).1.mp hok
  obtain ⟨⟨la, _, b, hb⟩, _⟩ := h
  exact absurd hb (by simp)

/-- Chapter-2 peer selection (`std::env::args().skip(1)`, line 138):
every argument after the program name, in order; nothing is treated as a
flag and nothing else is added. -/
def ch2PeerArgs (argv : List String) : List String := argv.drop 1

/-- The address hardcoded in chapter 3's emscripten branch
(`chapter-3/src/main.rs` line 161). -/
def hardcodedWsAddr : String := "/ip4/127.0.0.1/tcp/63204/ws"

/-- Chapter-3 peer selection (lines 158-162): outside emscripten,
`std::env::args().skip(1)`; on the emscripten target, the single
hardcoded websocket address. -/
def ch3PeerArgs (emscripten : Bool) (argv : List String) : List String :=
  if !emscripten then argv.drop 1 else [hardcodedWsAddr]

/-- The listen address literal of chapter 3's non-emscripten branch
(line 122). -/
def ch3ListenAddr : String := "/ip4/0.0.0.0/tcp/63204/ws"

/-- The externally visible actions of chapter-3 `main`, in program
order. -/
inductive Ch3Action
  | listenOn (addr : String)
  | subscribe (t : String)
  | dialAddr (addr : String)
deriving DecidableEq

/-- Chapter-3 `main` control flow (lines 121-171): the `listen_on` call
is executed only under `cfg!(not(target_os = "emscripten"))`; then the
single topic is subscribed and each selected peer address is dialed. -/
def ch3Actions (emscripten : Bool) (argv : List String) : List Ch3Action :=
  (if !emscripten then [Ch3Action.listenOn ch3ListenAddr] else [])
    ++ [Ch3Action.subscribe ch3TopicName]
    ++ (ch3PeerArgs emscripten argv).map Ch3Action.dialAddr

/-- Is the action a `listen_on` call? -/
def isListenAction : Ch3Action → Bool
  | .listenOn _ => true
  | _ => false

/-- The address dialed by the action, if it is a dial. -/
def dialTarget : Ch3Action → Option String
  | .dialAddr a => some a
  | _ => none

/-- Claim C6, counterexample: chapter 3 built for emscripten does not
dial the positional argument it was given and dials a different,
hardcoded address instead — so not every positional argument is dialed
and another address is. -/
theorem args_dialed_counterexample :
    "/ip4/1.2.3.4/tcp/1000/ws" ∉ ch3PeerArgs true ["chapter-3", "/ip4/1.2.3.4/tcp/1000/ws"]
      ∧ ch3PeerArgs true ["chapter-3", "/ip4/1.2.3.4/tcp/1000/ws"] = [hardcodedWsAddr] := by
  constructor
  · simp [ch3PeerArgs, hardcodedWsAddr]
  · simp [ch3PeerArgs]

/-- Claim C6, as amended: outside the emscripten target (chapter 2, and
chapter 3 built natively) every positional argument after the program
name is treated as a peer address — the dial loop attempts one dial per
argument, skipping none and interpreting none as a flag, and dials
nothing else; chapter 3 built for emscripten instead ignores the
arguments and dials only the single hardcoded address. -/
theorem args_dialed_amended {A C : Type}
    (parse : String → Option A) (dial : A → Option C) (argv : List String)
    (hok : ∀ a ∈ ch2PeerArgs argv, ∃ m c, parse a = some m ∧ dial m = some c) :
    ((dialLoop parse dial (ch2PeerArgs argv)).1.length = (argv.drop 1).length
        ∧ (dialLoop parse dial (ch2PeerArgs argv)).2 = none)
      ∧ ch3PeerArgs false argv = argv.drop 1
      ∧ ch3PeerArgs true argv = [hardcodedWsAddr] := by
  have h := dialLoop_ok parse dial (ch2PeerArgs argv) hok
  exact ⟨⟨h.2, h.1⟩, by simp [ch3PeerArgs], by simp [ch3PeerArgs]⟩

/-- Concrete instance of `args_dialed_amended`: with a total parser and
dialer, the two arguments after the program name produce exactly two
registered connections. -/
theorem args_dialed_amended_witness :
    (dialLoop (fun s => some s) (fun s : String => some s)
        (ch2PeerArgs ["prog", "/a", "/b"])).1.length
      = (["prog", "/a", "/b"].drop 1).length :=
  (args_dialed_amended (fun s => some s) (fun s : String => some s) ["prog", "/a", "/b"]
    (by intro a ha; exact ⟨a, a, rfl, rfl⟩)).1.1

/-- Claim C10: chapter 3 compiled for the emscripten target performs no
`listen_on` action at all and its dial actions target exactly the single
hardcoded address `"/ip4/127.0.0.1/tcp/63204/ws"`, whatever the
command-line arguments were. -/
theorem emscripten_dials_hardcoded_only (argv : List String) :
    (ch3Actions true argv).countP isListenAction = 0
      ∧ (ch3Actions true argv).filterMap dialTarget = [hardcodedWsAddr] := by
  constructor
  · simp [ch3Actions, ch3PeerArgs, isListenAction, List.countP_cons, dialTarget]
  · simp [ch3Actions, ch3PeerArgs, dialTarget, List.filterMap_cons]

/-! ## Connection manager ("swarm") -/

/-- A connection-level event observed by the swarm: a newly established
(dialed or accepted) connection, or an I/O error on an existing one. -/
inductive ConnEvent
  | established (c : Nat)
  | ioError (c : Nat)
deriving DecidableEq

/-- The swarm's observable state: the registry of active connections,
the closed-events it has emitted, and whether `swarm_future` has
resolved (which, through the chapter-2 `final_future` select chain,
ends the process). -/
structure SwarmState where
  active : List Nat
  closedEvents : List Nat
  resolved : Bool
deriving DecidableEq

/-- Modelled from the spec: the swarm event loop is library code, not
among the sources. Per the spec, "per-connection I/O errors are local
(that connection is torn down and a closed-event emitted); they never
propagate to or terminate the Connection Manager itself or sibling
connections". So an established connection is added to the registry, an
I/O error removes exactly the failing connection and emits a
closed-event, and neither resolves the swarm future. -/
def swarmStep (s : SwarmState) : ConnEvent → SwarmState
  | .established c => { s with active := c :: s.active }
  | .ioError c => { s with active := s.active.erase c, closedEvents := c :: s.closedEvents }

/-- The swarm after a sequence of connection-level events. -/
def swarmRun (s : SwarmState) (es : List ConnEvent) : SwarmState :=
  es.foldl swarmStep s

/-- The chapter-2 `final_future` select chain (`main.rs` lines 164-171):
`core.run(final_future)` returns — and the process ends — exactly when
one of `swarm_future`, `floodsub_rx` or `stdin_future` resolves. -/
def processEnds (swarmResolved floodsubResolved stdinResolved : Bool) : Bool :=
  swarmResolved || floodsubResolved || stdinResolved

/-- Claim C4: once startup has succeeded, per-connection failures never
end the process: after any sequence of connection events (I/O errors
included) the swarm future is still unresolved, so the select chain —
with the floodsub and stdin streams still pending — keeps the process
running; an I/O error on one connection leaves every sibling connection
registered; and the swarm still registers connections established after
the failures. -/
theorem connection_error_does_not_terminate
    (s : SwarmState) (es : List ConnEvent) (c d : Nat)
    (hres : s.resolved = false) :
    (swarmRun s es).resolved = false
      ∧ processEnds (swarmRun s es).resolved false false = false
      ∧ (c ∈ s.active → c ≠ d → c ∈ (swarmStep s (ConnEvent.ioError d)).active)
      ∧ c ∈ (swarmStep (swarmRun s es) (ConnEvent.established c)).active := by
  have hrun : ∀ (l : List ConnEvent) (st : SwarmState),
      st.resolved = false → (swarmRun st l).resolved = false := by
    intro l
    induction l with
    | nil => intro st h; simpa [swarmRun] using h
    | cons e rest ih =>
      intro st h
      have hstep : (swarmStep st e).resolved = false := by
        cases e <;> simpa [swarmStep] using h
      simpa [swarmRun] using ih (swarmStep st e) hstep
  refine ⟨hrun es s hres, ?_, ?_, ?_⟩
  · simp [processEnds, hrun es s hres]
  · intro hc hne
    simpa [swarmStep] using (List.mem_erase_of_ne hne).mpr hc
  · simp [swarmStep]

/-- Concrete instance of `connection_error_does_not_terminate`: starting
from a fresh swarm, establishing connections 1 and 2 and then failing 2
leaves the swarm unresolved, and the sibling connection 1 survives the
I/O error on connection 2. -/
theorem connection_error_does_not_terminate_witness :
    (swarmRun ⟨[], [], false⟩
        [ConnEvent.established 1, ConnEvent.established 2, ConnEvent.ioError 2]).resolved
        = false
      ∧ 1 ∈ (swarmStep ⟨[2, 1], [], false⟩ (ConnEvent.ioError 2)).active := by
  constructor
  · exact (connection_error_does_not_terminate ⟨[], [], false⟩
      [ConnEvent.established 1, ConnEvent.established 2, ConnEvent.ioError 2] 1 2 rfl).1
  · exact (connection_error_does_not_terminate ⟨[2, 1], [], false⟩ [] 1 2 rfl).2.2.1
      (by simp) (by decide)

/-! ## FloodSub engine -/

/-- Dedup identity of a FloodMessage: (originating PeerId, per-peer
sequence number). -/
structure MsgId where
  peer : Nat
  seqn : Nat
deriving DecidableEq

/-- A FloodMessage envelope: originating identity, target topic, opaque
payload bytes. -/
structure FloodMsg where
  source : MsgId
  topic : String
  data : List Nat
deriving DecidableEq

/-- Observable effects of the engine: handing a message to the local
consumer, or relaying it on one connection. -/
inductive FsEvent
  | deliver (m : FloodMsg)
  | relay (conn : Nat) (m : FloodMsg)
deriving DecidableEq

/-- Engine state: local peer id, next local sequence number, the
recently-seen dedup cache, the subscription set, and the upgraded
connections. -/
structure FsState where
  me : Nat
  nextSeq : Nat
  seen : List MsgId
  subs : List String
  conns : List Nat
deriving DecidableEq

/-- Modelled from the spec: inbound message handling of the FloodSub
engine (library code, not among the sources). "On receipt of a
FloodMessage, if its (PeerId, seq) pair is already in the dedup cache,
drop silently; otherwise record it, and if the local Subscriptions set
contains the message's topic, surface the message to the local
consumer; regardless of local interest, relay the message to every
other upgraded connection except the one it arrived on." -/
def fsReceive (s : FsState) (arrival : Nat) (m : FloodMsg) : FsState × List FsEvent :=
  if m.source ∈ s.seen then (s, [])
  else
    ({ s with seen := m.source :: s.seen },
      (if m.topic ∈ s.subs then [FsEvent.deliver m] else [])
        ++ (s.conns.filter (fun c => c ≠ arrival)).map (fun c => FsEvent.relay c m))

/-- Modelled from the spec: `subscribe(topic)` "adds topic to local
Subscriptions; broadcasts a control message to every currently-upgraded
connection" (the control broadcast carries no FloodMessage and is not
tracked here). -/
def fsSubscribe (s : FsState) (t : String) : FsState :=
  { s with subs := t :: s.subs }

/-- Modelled from the spec: `publish(topic, payload)` "constructs a
FloodMessage with a freshly incremented local sequence number, delivers
it to every currently-upgraded connection ... and records it in the
dedup cache." -/
def fsPublish (s : FsState) (t : String) (payload : List Nat) : FsState × List FsEvent :=
  let m : FloodMsg := ⟨⟨s.me, s.nextSeq⟩, t, payload⟩
  ({ s with nextSeq := s.nextSeq + 1, seen := m.source :: s.seen },
    s.conns.map (fun c => FsEvent.relay c m))

/-- A call into the engine: a local subscribe, a local publish, or an
inbound message arriving on a connection. -/
inductive FsOp
  | subscribe (t : String)
  | publish (t : String) (payload : List Nat)
  | inbound (arrival : Nat) (m : FloodMsg)
deriving DecidableEq

/-- One engine call. -/
def fsStep (s : FsState) : FsOp → FsState × List FsEvent
  | .subscribe t => (fsSubscribe s t, [])
  | .publish t p => fsPublish s t p
  | .inbound a m => fsReceive s a m

/-- A sequence of engine calls, collecting all emitted events in
order. -/
def fsOpsRun (s : FsState) : List FsOp → FsState × List FsEvent
  | [] => (s, [])
  | op :: rest =>
    let r1 := fsStep s op
    let r2 := fsOpsRun r1.1 rest
    (r2.1, r1.2 ++ r2.2)

/-- A sequence of inbound messages only (arrival connection paired with
the message), as `fsOpsRun` restricted to `inbound` calls. -/
def fsRun (s : FsState) : List (Nat × FloodMsg) → FsState × List FsEvent
  | [] => (s, [])
  | am :: rest =>
    let r1 := fsReceive s am.1 am.2
    let r2 := fsRun r1.1 rest
    (r2.1, r1.2 ++ r2.2)

/-- How many events of `evs` hand a message with dedup identity `i` to
the local consumer. -/
def deliverCount (i : MsgId) (evs : List FsEvent) : Nat :=
  (evs.filter (fun e =>
    match e with
    | FsEvent.deliver m => m.source = i
    | FsEvent.relay _ _ => false)).length

/-- How many events of `evs` relay a message with dedup identity `i` on
connection `c`. -/
def relayCount (i : MsgId) (c : Nat) (evs : List FsEvent) : Nat :=
  (evs.filter (fun e =>
    match e with
    | FsEvent.deliver _ => false
    | FsEvent.relay c2 m => m.source = i && c2 = c)).length

/-- The message an engine event is about. -/
def evMsg : FsEvent → FloodMsg
  | FsEvent.deliver m => m
  | FsEvent.relay _ m => m

theorem fsReceive_conns (s : FsState) (a : Nat) (m : FloodMsg) :
    ((fsReceive s a m).1).conns = s.conns := by
  unfold fsReceive
  split <;> rfl

theorem fsReceive_seen_mono (s : FsState) (a : Nat) (m : FloodMsg) {i : MsgId}
    (h : i ∈ s.seen) : i ∈ ((fsReceive s a m).1).seen := by
  unfold fsReceive
  split
  · exact h
  · exact List.mem_cons_of_mem _ h

theorem fsReceive_seen_self (s : FsState) (a : Nat) (m : FloodMsg) :
    m.source ∈ ((fsReceive s a m).1).seen := by
  unfold fsReceive
  split
  · assumption
  · exact List.mem_cons_self _ _

theorem fsReceive_dropped (s : FsState) (a : Nat) (m : FloodMsg)
    (h : m.source ∈ s.seen) : (fsReceive s a m).2 = [] := by
  unfold fsReceive
  rw [if_pos h]

theorem fsReceive_evMsg (s : FsState) (a : Nat) (m : FloodMsg) :
    ∀ e ∈ (fsReceive s a m).2, evMsg e = m := by
  intro e he
  unfold fsReceive at he
  split at he
  · simp at he
  · simp only [] at he
    rcases List.mem_append.mp he with h | h
    · split at h
      · rw [List.mem_singleton] at h
        subst h
        rfl
      · simp at h
    · obtain ⟨c2, _, rfl⟩ := List.mem_map.mp h
      rfl

theorem deliverCount_append (i : MsgId) (l1 l2 : List FsEvent) :
    deliverCount i (l1 ++ l2) = deliverCount i l1 + deliverCount i l2 := by
  simp [deliverCount, List.filter_append]

theorem relayCount_append (i : MsgId) (c : Nat) (l1 l2 : List FsEvent) :
    relayCount i c (l1 ++ l2) = relayCount i c l1 + relayCount i c l2 := by
  simp [relayCount, List.filter_append]

theorem deliverCount_eq_zero (i : MsgId) (evs : List FsEvent)
    (h : ∀ e ∈ evs, (evMsg e).source ≠ i) : deliverCount i evs = 0 := by
  rw [deliverCount, List.length_eq_zero]
  rw [List.filter_eq_nil_iff]
  intro e he
  have := h e he
  cases e with
  | deliver m => simpa [evMsg] using (by simpa [evMsg] using this : m.source ≠ i)
  | relay c2 m => simp

theorem relayCount_eq_zero (i : MsgId) (c : Nat) (evs : List FsEvent)
    (h : ∀ e ∈ evs, (evMsg e).source ≠ i) : relayCount i c evs = 0 := by
  rw [relayCount, List.length_eq_zero, List.filter_eq_nil_iff]
  intro e he
  have := h e he
  cases e with
  | deliver m => simp
  | relay c2 m =>
    have hm : m.source ≠ i := by simpa [evMsg] using this
    simp [hm]

theorem deliverCount_map_relay (i : MsgId) (m : FloodMsg) (L : List Nat) :
    deliverCount i (L.map (fun c2 => FsEvent.relay c2 m)) = 0 := by
  rw [deliverCount, List.length_eq_zero, List.filter_eq_nil_iff]
  intro e he
  obtain ⟨c2, _, rfl⟩ := List.mem_map.mp he
  simp

theorem relayCount_map (i : MsgId) (c : Nat) (m : FloodMsg) :
    ∀ L : List Nat, relayCount i c (L.map (fun c2 => FsEvent.relay c2 m))
      = if m.source = i then L.count c else 0 := by
  intro L
  induction L with
  | nil => simp [relayCount]
  | cons x rest ih =>
    simp only [List.map_cons, relayCount, List.filter_cons] at ih ⊢
    by_cases hsi : m.source = i <;> by_cases hxc : x = c <;>
      simp [hsi, hxc, List.count_cons, ih]

theorem fsReceive_deliverCount_le (s : FsState) (a : Nat) (m : FloodMsg) (i : MsgId) :
    deliverCount i (fsReceive s a m).2 ≤ 1 := by
  by_cases hseen : m.source ∈ s.seen
  · rw [fsReceive_dropped s a m hseen]
    simp [deliverCount]
  · unfold fsReceive
    rw [if_neg hseen]
    rw [deliverCount_append, deliverCount_map_relay]
    split
    · by_cases hsi : m.source = i <;> simp [deliverCount, List.filter_cons, hsi]
    · simp [deliverCount]

theorem fsReceive_relayCount_le (s : FsState) (a : Nat) (m : FloodMsg) (i : MsgId)
    (c : Nat) (hnd : s.conns.Nodup) : relayCount i c (fsReceive s a m).2 ≤ 1 := by
  by_cases hseen : m.source ∈ s.seen
  · rw [fsReceive_dropped s a m hseen]
    simp [relayCount]
  · unfold fsReceive
    rw [if_neg hseen]
    rw [relayCount_append]
    have hdel : relayCount i c (if m.topic ∈ s.subs then [FsEvent.deliver m] else []) = 0 := by
      split <;> simp [relayCount]
    rw [hdel, relayCount_map]
    split
    · simpa using (List.nodup_iff_count_le_one.mp (hnd.filter _)) c
    · simp

theorem fsRun_seen_zero (i : MsgId) (c : Nat) :
    ∀ (inputs : List (Nat × FloodMsg)) (s : FsState), i ∈ s.seen →
      deliverCount i (fsRun s inputs).2 = 0 ∧ relayCount i c (fsRun s inputs).2 = 0 := by
  intro inputs
  induction inputs with
  | nil => intro s _; simp [fsRun, deliverCount, relayCount]
  | cons am rest ih =>
    intro s hs
    have hstep : ∀ e ∈ (fsReceive s am.1 am.2).2, (evMsg e).source ≠ i := by
      intro e he hsrc
      have hm := fsReceive_evMsg s am.1 am.2 e he
      by_cases hseen : am.2.source ∈ s.seen
      · rw [fsReceive_dropped s am.1 am.2 hseen] at he
        simp at he
      · exact hseen (by rw [hm] at hsrc; rw [hsrc]; exact hs)
    have ihr := ih (fsReceive s am.1 am.2).1 (fsReceive_seen_mono s am.1 am.2 hs)
    simp only [fsRun, deliverCount_append, relayCount_append]
    rw [deliverCount_eq_zero i _ hstep, relayCount_eq_zero i c _ hstep, ihr.1, ihr.2]
    simp

/-- Claim C7: over any sequence of inbound FloodMessages — duplicates
with the same (originating PeerId, sequence number) included — the
engine hands a message with a given dedup identity to the local consumer
at most once, and relays it on any given connection at most once: the
dedup cache suppresses every later duplicate. -/
theorem duplicate_message_suppressed :
    ∀ (inputs : List (Nat × FloodMsg)) (s : FsState), s.conns.Nodup →
      ∀ (i : MsgId) (c : Nat),
        deliverCount i (fsRun s inputs).2 ≤ 1 ∧ relayCount i c (fsRun s inputs).2 ≤ 1 := by
  intro inputs
  induction inputs with
  | nil => intro s _ i c; simp [fsRun, deliverCount, relayCount]
  | cons am rest ih =>
    intro s hnd i c
    have hconns : ((fsReceive s am.1 am.2).1).conns.Nodup := by
      rw [fsReceive_conns]; exact hnd
    simp only [fsRun, deliverCount_append, relayCount_append]
    by_cases hsi : am.2.source = i
    · -- the first receipt of identity `i` emits at most one of each
      -- event, and afterwards `i` is in the dedup cache
      have hafter : i ∈ ((fsReceive s am.1 am.2).1).seen := by
        rw [← hsi]; exact fsReceive_seen_self s am.1 am.2
      have hz := fsRun_seen_zero i c rest (fsReceive s am.1 am.2).1 hafter
      constructor
      · rw [hz.1]
        simpa using fsReceive_deliverCount_le s am.1 am.2 i
      · rw [hz.2]
        simpa using fsReceive_relayCount_le s am.1 am.2 i c hnd
    · -- a message with another identity contributes nothing to `i`
      have hstep : ∀ e ∈ (fsReceive s am.1 am.2).2, (evMsg e).source ≠ i := by
        intro e he hsrc
        have hm := fsReceive_evMsg s am.1 am.2 e he
        exact hsi (by rw [hm] at hsrc; exact hsrc)
      have ihr := ih (fsReceive s am.1 am.2).1 hconns i c
      rw [deliverCount_eq_zero i _ hstep, relayCount_eq_zero i c _ hstep]
      simpa using ihr

/-- Concrete instance of `duplicate_message_suppressed`: a node with
connections 1 and 2, subscribed to "t", receives the same message twice
(once on each connection, as in a cyclic topology); the consumer gets
it once and it is relayed on connection 2 once. -/
theorem duplicate_message_suppressed_witness :
    deliverCount ⟨7, 0⟩
        (fsRun ⟨9, 0, [], ["t"], [1, 2]⟩
          [(1, ⟨⟨7, 0⟩, "t", [104]⟩), (2, ⟨⟨7, 0⟩, "t", [104]⟩)]).2 ≤ 1
      ∧ relayCount ⟨7, 0⟩ 2
        (fsRun ⟨9, 0, [], ["t"], [1, 2]⟩
          [(1, ⟨⟨7, 0⟩, "t", [104]⟩), (2, ⟨⟨7, 0⟩, "t", [104]⟩)]).2 ≤ 1 :=
  duplicate_message_suppressed
    [(1, ⟨⟨7, 0⟩, "t", [104]⟩), (2, ⟨⟨7, 0⟩, "t", [104]⟩)]
    ⟨9, 0, [], ["t"], [1, 2]⟩ (by decide) ⟨7, 0⟩ 2

/-- Is the engine call a subscribe? -/
def isSubscribeOp : FsOp → Bool
  | FsOp.subscribe _ => true
  | _ => false

/-- The floodsub controller calls chapter-2 `main` performs, in program
order (`chapter-2/src/main.rs` lines 106-159): one `subscribe` of the
single topic built at startup, then one `publish` per newline-terminated
stdin line. -/
def ch2ControllerOps (stdinBytes : List Nat) : List FsOp :=
  FsOp.subscribe ch2TopicName ::
    ((stdinRun ch2TopicName [] stdinBytes).2.map (fun p => FsOp.publish p.1 p.2))

/-- The floodsub controller calls chapter-3 `main` performs, in program
order (`chapter-3/src/main.rs` lines 140-176): one `subscribe` of the
single topic built at startup, then one `publish` per stdin message
(`bytes` abstracts `String::into_bytes`). -/
def ch3ControllerOps (bytes : String → List Nat) (msgs : List String) : List FsOp :=
  FsOp.subscribe ch3TopicName ::
    ((ch3StdinRun ch3TopicName msgs).map (fun p => FsOp.publish p.1 (bytes p.2)))

theorem fsStep_subs_mono (s : FsState) (op : FsOp) {t : String}
    (h : t ∈ s.subs) : t ∈ ((fsStep s op).1).subs := by
  cases op with
  | subscribe t2 => exact List.mem_cons_of_mem _ h
  | publish t2 p => exact h
  | inbound a m =>
    show t ∈ ((fsReceive s a m).1).subs
    unfold fsReceive
    split
    · exact h
    · exact h

theorem fsStep_subs_eq (s : FsState) (op : FsOp) (h : isSubscribeOp op = false) :
    ((fsStep s op).1).subs = s.subs := by
  cases op with
  | subscribe t2 => simp [isSubscribeOp] at h
  | publish t2 p => rfl
  | inbound a m =>
    show ((fsReceive s a m).1).subs = s.subs
    unfold fsReceive
    split
    · rfl
    · rfl

theorem fsOpsRun_subs_eq :
    ∀ (ops : List FsOp) (s : FsState), (∀ op ∈ ops, isSubscribeOp op = false) →
      (((fsOpsRun s ops).1).subs) = s.subs := by
  intro ops
  induction ops with
  | nil => intro s _; rfl
  | cons op rest ih =>
    intro s h
    have h1 := fsStep_subs_eq s op (h op (List.mem_cons_self op rest))
    have h2 := ih (fsStep s op).1 (fun o ho => h o (List.mem_cons_of_mem op ho))
    simpa [fsOpsRun, h1] using h2

theorem fsOpsRun_subs_mono :
    ∀ (ops : List FsOp) (s : FsState) (t : String),
      t ∈ s.subs → t ∈ (((fsOpsRun s ops).1).subs) := by
  intro ops
  induction ops with
  | nil => intro s t h; exact h
  | cons op rest ih =>
    intro s t h
    exact ih (fsStep s op).1 t (fsStep_subs_mono s op h)

/-- Claim C8: the subscription set is monotonically non-decreasing over
the whole run — no engine call ever removes a subscription, and only a
`subscribe` call can add one (there is no unsubscribe operation); both
programs issue exactly one `subscribe` call, at startup, so a node
started with no subscriptions ends any chapter-2 run subscribed to
exactly the single topic built at startup. -/
theorem subscriptions_monotone :
    (∀ (ops : List FsOp) (s : FsState) (t : String),
        t ∈ s.subs → t ∈ (((fsOpsRun s ops).1).subs))
      ∧ (∀ (s : FsState) (op : FsOp) (t : String),
          t ∈ ((fsStep s op).1).subs → t ∈ s.subs ∨ op = FsOp.subscribe t)
      ∧ (∀ stdinBytes : List Nat,
          (ch2ControllerOps stdinBytes).countP isSubscribeOp = 1)
      ∧ (∀ (bytes : String → List Nat) (msgs : List String),
          (ch3ControllerOps bytes msgs).countP isSubscribeOp = 1)
      ∧ (∀ (stdinBytes : List Nat) (s0 : FsState), s0.subs = [] →
          (((fsOpsRun s0 (ch2ControllerOps stdinBytes)).1).subs) = [ch2TopicName]) := by
  refine ⟨fsOpsRun_subs_mono, ?_, ?_, ?_, ?_⟩
  · intro s op t h
    cases op with
    | subscribe t2 =>
      rcases List.mem_cons.mp h with h | h
      · exact Or.inr (by rw [h])
      · exact Or.inl h
    | publish t2 p => exact Or.inl h
    | inbound a m =>
      rw [show ((fsStep s (FsOp.inbound a m)).1).subs = s.subs from
        fsStep_subs_eq s _ rfl] at h
      exact Or.inl h
  · intro stdinBytes
    simp only [ch2ControllerOps, List.countP_cons]
    rw [List.countP_map]
    rw [List.countP_eq_zero.mpr (by intro p _; simp [isSubscribeOp, Function.comp])]
    simp [isSubscribeOp]
  · intro bytes msgs
    simp only [ch3ControllerOps, List.countP_cons]
    rw [List.countP_map]
    rw [List.countP_eq_zero.mpr (by intro p _; simp [isSubscribeOp, Function.comp])]
    simp [isSubscribeOp]
  · intro stdinBytes s0 h0
    simp only [ch2ControllerOps, fsOpsRun]
    rw [fsOpsRun_subs_eq _ _ (by intro op hop; obtain ⟨p, _, rfl⟩ := List.mem_map.mp hop; rfl)]
    show (ch2TopicName :: s0.subs) = [ch2TopicName]
    rw [h0]

/-- Concrete instance of `subscriptions_monotone`: a node subscribed to
"t" stays subscribed after a publish call, and the chapter-2 trace for
the stdin bytes of "hi\n" contains exactly one subscribe call. -/
theorem subscriptions_monotone_witness :
    "t" ∈ (((fsOpsRun ⟨0, 0, [], ["t"], []⟩ [FsOp.publish "x" []]).1).subs)
      ∧ (ch2ControllerOps [104, 105, 10]).countP isSubscribeOp = 1 :=
  ⟨subscriptions_monotone.1 [FsOp.publish "x" []] ⟨0, 0, [], ["t"], []⟩ "t"
      (List.mem_singleton.mpr rfl),
    subscriptions_monotone.2.2.1 [104, 105, 10]⟩

end Workshop
